import Mathlib

/-!
Shallow embedding of the winnow-based JSON parser in
`src/.history/src/json_20240812170544.rs`.

Inputs are modelled as `List Char` (the remaining input after a cursor
position); every parser is a pure function `List Char → Option (α × List Char)`
returning the parsed value together with the rest of the input, `none` on
failure.  All failures in the source are winnow `ErrMode::Backtrack` errors
(no `cut_err` appears), so `alt` restores the input on failure; the pure
`Option` model captures this exactly.

The source accumulates numeric values in `f64`.  The embedding idealises that
arithmetic as exact rational arithmetic (`ℚ`): every operation the parser
performs (integer-to-float conversion, division by a power of ten, `powi`,
negation) is modelled by the corresponding exact operation.  None of the
claims settled here depends on rounding: they concern which scale exponent is
used, whether a parse succeeds at all, and which constructor is produced.
-/

namespace JsonSrc

/-- The numeric variants of the source (`enum Num`), with `f64` idealised as
`ℚ`.  The `Int` variant exists in the source but is never produced by
`parse_num`. -/
inductive Num where
  | Int : Int → Num
  | Float : ℚ → Num
deriving DecidableEq

/-- The JSON value tree of the source (`enum JsonValue`).  `HashMap<String,
JsonValue>` is modelled as an association list with unique keys built by
insert-with-overwrite (`mapInsert`), matching `HashMap::insert` semantics;
only lookup semantics and key uniqueness are used by the claims, not any
iteration order (the source's map is unordered). -/
inductive JsonValue where
  | Null : JsonValue
  | Bool : Bool → JsonValue
  | Number : Num → JsonValue
  | String : List Char → JsonValue
  | Array : List JsonValue → JsonValue
  | Object : List (List Char × JsonValue) → JsonValue

/-- Whitespace recognised by winnow's `multispace0`: space, tab, newline,
carriage return. -/
def isWsChar (c : Char) : Bool :=
  c = ' ' || c = '\t' || c = '\n' || c = '\r'

/-- `multispace0`: consume zero or more whitespace characters. -/
def skipWs : List Char → List Char
  | [] => []
  | c :: cs => if isWsChar c then skipWs cs else c :: cs

/-- `sep_with_space(tok)` for a one-character token: `multispace0`, the
token, `multispace0`. -/
def sepWithSpace (tok : Char) (input : List Char) : Option (List Char) :=
  match skipWs input with
  | [] => none
  | c :: cs => if c = tok then some (skipWs cs) else none

/-- Match a literal string token (winnow's `&str` parser): consume it exactly
or fail without consuming. -/
def matchLit : List Char → List Char → Option (List Char)
  | [], rest => some rest
  | _ :: _, [] => none
  | t :: ts, c :: cs => if c = t then matchLit ts cs else none

/-- `parse_null`: the literal `null`, producing `()`. -/
def parse_null (input : List Char) : Option (List Char) :=
  matchLit "null".toList input

/-- `parse_bool`: `alt(("true", "false")).parse_to::<bool>()`. -/
def parse_bool (input : List Char) : Option (Bool × List Char) :=
  match matchLit "true".toList input with
  | some rest => some (true, rest)
  | none =>
    match matchLit "false".toList input with
    | some rest => some (false, rest)
    | none => none

/-- winnow `digit1`: one or more ASCII decimal digits; fails on zero
digits. -/
def digit1 (input : List Char) : Option (List Char × List Char) :=
  match input.takeWhile Char.isDigit with
  | [] => none
  | d :: ds => some (d :: ds, input.dropWhile Char.isDigit)

/-- Numeric value of a digit run, most significant first. -/
def digitsToNat (ds : List Char) : Nat :=
  ds.foldl (fun acc c => acc * 10 + (c.toNat - '0'.toNat)) 0

/-- `i64::MAX`. -/
def i64Max : Nat := 9223372036854775807

/-- `.parse_to::<i64>()` applied to a digit run (no sign, so the value is
non-negative): succeeds exactly when the value fits in `i64`. -/
def parseToI64 (ds : List Char) : Option Int :=
  if digitsToNat ds ≤ i64Max then some (digitsToNat ds) else none

/-- Length of `frac.to_string()` for a non-negative `i64` value: the number
of decimal digits of the already-parsed integer (leading zeros of the text
run are gone). -/
def digitCount (n : Int) : Nat :=
  (Nat.toDigits 10 n.toNat).length

/-- `10f64.powi(e)` (and `powf` on a non-negative integral argument),
idealised over `ℚ`. -/
def zpow10 : Int → ℚ
  | Int.ofNat n => 10 ^ n
  | Int.negSucc n => 1 / 10 ^ (n + 1)

/-- `opt("-")`: consume a leading minus sign if present, reporting whether it
was there. -/
def optNeg (input : List Char) : Bool × List Char :=
  match input with
  | [] => (false, [])
  | c :: cs => if c = '-' then (true, cs) else (false, c :: cs)

/-- The fractional-part step of `parse_num`: if a `.` follows, require a
digit run, parse it through `i64`, and add `frac / 10^(digit count of the
parsed integer)`; with no `.` the accumulator passes through unchanged.
A `.` with no digits, or a fractional run overflowing `i64`, fails the whole
number parse (the source propagates with `?`). -/
def fracStep (v : ℚ) (input : List Char) : Option (ℚ × List Char) :=
  match input with
  | [] => some (v, [])
  | c :: r1 =>
    if c = '.' then
      match digit1 r1 with
      | none => none
      | some (fds, r2) =>
        match parseToI64 fds with
        | none => none
        | some frac => some (v + (frac : ℚ) / 10 ^ digitCount frac, r2)
    else some (v, c :: r1)

/-- The tail of the exponent step, after `e`/`E` was consumed: `opt("-")`,
then a required digit run through `i64`, then multiply by `10^(±exp)`.
An explicit `+` is not consumed by `opt("-")`, so `digit1` then fails on it
and the whole number parse fails. -/
def expTail (v : ℚ) (input : List Char) : Option (ℚ × List Char) :=
  let (esign, r0) := optNeg input
  match digit1 r0 with
  | none => none
  | some (eds, r1) =>
    match parseToI64 eds with
    | none => none
    | some ev => some (v * zpow10 (if esign then -ev else ev), r1)

/-- The exponent step of `parse_num`: try `e`, then `E`; with neither, pass
through. -/
def expStep (v : ℚ) (input : List Char) : Option (ℚ × List Char) :=
  match input with
  | [] => some (v, [])
  | c :: r1 =>
    if c = 'e' then expTail v r1
    else if c = 'E' then expTail v r1
    else some (v, c :: r1)

/-- `parse_num`: optional sign, required integer digit run through `i64`,
optional fraction, optional exponent, final negation; always produces
`Num.Float`. -/
def parse_num (input : List Char) : Option (Num × List Char) :=
  let (sign, r0) := optNeg input
  match digit1 r0 with
  | none => none
  | some (ds, r1) =>
    match parseToI64 ds with
    | none => none
    | some num =>
      match fracStep (num : ℚ) r1 with
      | none => none
      | some (v1, r2) =>
        match expStep v1 r2 with
        | none => none
        | some (v2, r3) =>
          some (if sign then Num.Float (-v2) else Num.Float v2, r3)

/-- winnow `take_until(0.., ch)`: the run strictly before the first
occurrence of the terminator, which must exist. -/
def takeUntilChar (ch : Char) : List Char → Option (List Char × List Char)
  | [] => none
  | c :: cs =>
    if c = ch then some ([], c :: cs)
    else
      match takeUntilChar ch cs with
      | none => none
      | some (pre, rest) => some (c :: pre, rest)

/-- `parse_string`: `delimited('"', take_until(0.., '"'), '"')` — no escape
processing; the first following quote always terminates. -/
def parse_string (input : List Char) : Option (List Char × List Char) :=
  match input with
  | [] => none
  | c :: r1 =>
    if c = '"' then
      match takeUntilChar '"' r1 with
      | none => none
      | some (s, r2) =>
        match r2 with
        | [] => none
        | c2 :: r3 => if c2 = '"' then some (s, r3) else none
    else none

/-- `HashMap::insert`: overwrite the binding of an existing key, otherwise
add a new entry. -/
def mapInsert : List (List Char × JsonValue) → List Char → JsonValue →
    List (List Char × JsonValue)
  | [], k, v => [(k, v)]
  | p :: m, k, v => if p.1 = k then (k, v) :: m else p :: mapInsert m k v

/-- The keys of the map, in entry order. -/
def mapKeys (m : List (List Char × JsonValue)) : List (List Char) :=
  m.map (fun p => p.1)

/-- `HashMap::get`: the value bound to a key, if any. -/
def mapLookup : List (List Char × JsonValue) → List Char → Option JsonValue
  | [], _ => none
  | p :: m, k => if p.1 = k then some p.2 else mapLookup m k

/-- The accumulation winnow's `separated(1.., .., ..)` performs when its
output type is `HashMap`: start from the empty map and `insert` each parsed
pair in textual order. -/
def buildMap (ps : List (List Char × JsonValue)) : List (List Char × JsonValue) :=
  ps.foldl (fun m p => mapInsert m p.1 p.2) []

/-- The value of the last occurrence of a key in a pair sequence, if the key
occurs at all. -/
def lastAssoc (k : List Char) (ps : List (List Char × JsonValue)) : Option JsonValue :=
  ((ps.filter (fun p => p.1 = k)).getLast?).map (fun p => p.2)

/-!
The mutually recursive part of the grammar.  The source recurses directly
(`parse_value` → `parse_array`/`parse_object` → `parse_value`); the embedding
makes termination structural with a fuel parameter that every function
decrements on every call.  Fuel exhaustion returns `none` (for the
`separated` loops: stops the loop), which never happens when the fuel exceeds
the number of parser steps; `parse_json` passes `4 * length + 4`, ample since
every step that spends fuel either consumes input or is one of at most four
steps chained per consumed character.  No theorem below relies on a fuel
sufficiency argument: the general ones hold for every fuel value and the
concrete ones evaluate at a concrete ample fuel.
-/

mutual

/-- `parse_value`: ordered alternation null → bool → num → string → array →
object, each failure backtracking to the original input. -/
def parse_value : Nat → List Char → Option (JsonValue × List Char)
  | 0, _ => none
  | fuel + 1, input =>
    match parse_null input with
    | some rest => some (JsonValue.Null, rest)
    | none =>
      match parse_bool input with
      | some (b, rest) => some (JsonValue.Bool b, rest)
      | none =>
        match parse_num input with
        | some (n, rest) => some (JsonValue.Number n, rest)
        | none =>
          match parse_string input with
          | some (s, rest) => some (JsonValue.String s, rest)
          | none =>
            match parse_array fuel input with
            | some (xs, rest) => some (JsonValue.Array xs, rest)
            | none =>
              match parse_object fuel input with
              | some (m, rest) => some (JsonValue.Object m, rest)
              | none => none

/-- `parse_array`: `delimited(sep_with_space('['), separated(0.., parse_value,
sep_with_space(',')), sep_with_space(']'))`. -/
def parse_array : Nat → List Char → Option (List JsonValue × List Char)
  | 0, _ => none
  | fuel + 1, input =>
    match sepWithSpace '[' input with
    | none => none
    | some r1 =>
      let (xs, r2) := parseElems fuel r1
      match sepWithSpace ']' r2 with
      | none => none
      | some r3 => some (xs, r3)

/-- `separated(0.., parse_value, sep_with_space(','))`: zero or more
elements; never fails (an immediately failing element yields the empty
list with the input untouched). -/
def parseElems : Nat → List Char → List JsonValue × List Char
  | 0, input => ([], input)
  | fuel + 1, input =>
    match parse_value fuel input with
    | none => ([], input)
    | some (v, r1) =>
      let (vs, r2) := parseElemsLoop fuel r1
      (v :: vs, r2)

/-- The continuation loop of `separated`: try the comma separator then the
next element; if either fails, backtrack to before the separator and stop. -/
def parseElemsLoop : Nat → List Char → List JsonValue × List Char
  | 0, input => ([], input)
  | fuel + 1, input =>
    match sepWithSpace ',' input with
    | none => ([], input)
    | some r1 =>
      match parse_value fuel r1 with
      | none => ([], input)
      | some (v, r2) =>
        let (vs, r3) := parseElemsLoop fuel r2
        (v :: vs, r3)

/-- `separated_pair(parse_string, sep_with_space(':'), parse_value)`. -/
def parseKvPair : Nat → List Char → Option ((List Char × JsonValue) × List Char)
  | 0, _ => none
  | fuel + 1, input =>
    match parse_string input with
    | none => none
    | some (k, r1) =>
      match sepWithSpace ':' r1 with
      | none => none
      | some r2 =>
        match parse_value fuel r2 with
        | none => none
        | some (v, r3) => some ((k, v), r3)

/-- `separated(1.., parse_kv_pair, sep_with_space(','))`, returning the
textual sequence of key-value pairs: at least one pair is required. -/
def parseKvList : Nat → List Char → Option (List (List Char × JsonValue) × List Char)
  | 0, _ => none
  | fuel + 1, input =>
    match parseKvPair fuel input with
    | none => none
    | some (p, r1) =>
      let (ps, r2) := parseKvLoop fuel r1
      some (p :: ps, r2)

/-- The continuation loop of `separated` for key-value pairs. -/
def parseKvLoop : Nat → List Char → List (List Char × JsonValue) × List Char
  | 0, input => ([], input)
  | fuel + 1, input =>
    match sepWithSpace ',' input with
    | none => ([], input)
    | some r1 =>
      match parseKvPair fuel r1 with
      | none => ([], input)
      | some (p, r2) =>
        let (ps, r3) := parseKvLoop fuel r2
        (p :: ps, r3)

/-- `parse_object`: braces around `separated(1.., parse_kv_pair, ..)`, the
parsed pairs inserted into the map in textual order. -/
def parse_object : Nat → List Char → Option (List (List Char × JsonValue) × List Char)
  | 0, _ => none
  | fuel + 1, input =>
    match sepWithSpace '\x7b' input with
    | none => none
    | some r1 =>
      match parseKvList fuel r1 with
      | none => none
      | some (ps, r2) =>
        match sepWithSpace '\x7d' r2 with
        | none => none
        | some r3 => some (buildMap ps, r3)

end

/-- The fuel `parse_json` hands to the grammar: ample for any input. -/
def ampleFuel (input : List Char) : Nat := 4 * input.length + 4

/-- `parse_value` as called from the entry point. -/
def parseValueTop (input : List Char) : Option (JsonValue × List Char) :=
  parse_value (ampleFuel input) input

/-- `parse_json`: run `parse_value` at the start of the input and keep the
value, ignoring whatever input remains; any parse failure propagates as the
error (`none`). -/
def parse_json (input : List Char) : Option JsonValue :=
  match parseValueTop input with
  | none => none
  | some (v, _) => some v

/-! ## Helper lemmas -/

/-- The fixed power of ten applied by a positive three-digit exponent. -/
theorem zpow10_three : zpow10 3 = 1000 := by
  show zpow10 (Int.ofNat 3) = 1000
  unfold zpow10
  norm_num

/-- `take_until` splits exactly at the first quote. -/
theorem takeUntilChar_no_quote (mid rest : List Char) (h : '"' ∉ mid) :
    takeUntilChar '"' (mid ++ '"' :: rest) = some (mid, '"' :: rest) := by
  induction mid with
  | nil => simp [takeUntilChar]
  | cons c cs ih =>
    have hc : ¬ c = '"' := by
      intro hcq
      exact h (by simp [hcq])
    have hcs : '"' ∉ cs := by
      intro hm
      exact h (List.mem_cons_of_mem c hm)
    simp [takeUntilChar, hc, ih hcs]

/-! ## Claim theorems -/

/-- C1 (code bug in the source): the fractional scale factor is the digit
count of the integer already parsed from the fractional run
(`frac.to_string().len()`), not of the text run itself, so leading zeros are
lost: the source evaluates `parse("0.001E3")` to `100.0` (`001` parses to
`1`, one digit, so the fraction contributes `1/10`), while the claim — and
the source's own test `test_parse_num_scientific` — require `1.0`. -/
theorem parse_frac_scale_drops_leading_zeros :
    parse_json "0.001E3".toList = some (JsonValue.Number (Num.Float 100)) ∧
    (100 : ℚ) ≠ 1 := by
  constructor
  · have h : parse_json "0.001E3".toList
        = some (JsonValue.Number (Num.Float (((0 : ℚ) + 1 / 10 ^ 1) * zpow10 3))) := by rfl
    rw [h, zpow10_three]
    norm_num
  · norm_num

/-- C2 (code bug in the source): after `e`/`E` only `-` is tried as an
exponent sign, so an explicit `+` reaches `digit1`, which fails on it and
the whole number parse errors: `parse("3.14e+2")` fails, while the claim —
and the source's own test `test_parse_num_scientific` — require `314.0`. -/
theorem parse_exp_plus_sign_fails :
    parse_json "3.14e+2".toList = none ∧ parse_num "3.14e+2".toList = none :=
  ⟨by rfl, by rfl⟩

/-- C3: the empty array is accepted and produces the empty sequence, while
the empty object fails, since `separated(1.., ..)` demands at least one
key-value pair. -/
theorem empty_array_accepted_empty_object_rejected :
    parse_json "[]".toList = some (JsonValue.Array []) ∧
    parse_json "\x7b\x7d".toList = none :=
  ⟨by rfl, by rfl⟩

/-- C4: whenever the number parser succeeds its result is the `Float`
variant; the `Int` variant is never produced. -/
theorem parse_num_always_float :
    ∀ (input : List Char) (n : Num) (rest : List Char),
      parse_num input = some (n, rest) → ∃ q, n = Num.Float q := by
  intro input n rest h
  unfold parse_num at h
  repeat' split at h
  all_goals first
    | exact Option.noConfusion h
    | (simp only [Option.some.injEq, Prod.mk.injEq] at h
       exact ⟨_, h.1.symm⟩)

/-- C4 witness. -/
theorem parse_num_always_float_witness :
    ∃ q, Num.Float (123 : ℚ) = Num.Float q :=
  parse_num_always_float "123".toList (Num.Float 123) [] (by rfl)

/-- C5: the entry point runs `parse_value` at the first character and keeps
the value while discarding whatever input remains; when no value parses at
the start it fails. -/
theorem parse_json_ignores_trailing :
    (∀ (s : List Char) (v : JsonValue) (rest : List Char),
        parseValueTop s = some (v, rest) → parse_json s = some v) ∧
    (∀ (s : List Char), parseValueTop s = none → parse_json s = none) := by
  constructor
  · intro s v rest h
    unfold parse_json
    rw [h]
  · intro s h
    unfold parse_json
    rw [h]

/-- C5 witness: trailing garbage after `null` is ignored. -/
theorem parse_json_ignores_trailing_witness :
    parse_json "null junk".toList = some JsonValue.Null :=
  parse_json_ignores_trailing.1 "null junk".toList JsonValue.Null " junk".toList (by rfl)

/-- C7: the string parser takes the raw run up to the first following quote,
with no backslash-escape interpretation; a backslash before a quote does not
keep that quote from terminating the string. -/
theorem parse_string_no_escapes :
    (∀ (mid rest : List Char), '"' ∉ mid →
        parse_string ('"' :: (mid ++ '"' :: rest)) = some (mid, rest)) ∧
    parse_json "\"hello\"".toList = some (JsonValue.String "hello".toList) ∧
    parse_string "\"a\\\"b\"".toList = some ("a\\".toList, "b\"".toList) := by
  refine ⟨?_, by rfl, by rfl⟩
  intro mid rest h
  simp [parse_string, takeUntilChar_no_quote mid rest h]

/-- C7 witness. -/
theorem parse_string_no_escapes_witness :
    parse_string ('"' :: (['x'] ++ '"' :: ['y'])) = some (['x'], ['y']) :=
  parse_string_no_escapes.1 ['x'] ['y'] (by decide)

/-- Looking a key up after an insert sees the inserted value for that key
and is otherwise unchanged. -/
theorem mapLookup_insert (m : List (List Char × JsonValue)) (k : List Char)
    (v : JsonValue) (k' : List Char) :
    mapLookup (mapInsert m k v) k' = if k' = k then some v else mapLookup m k' := by
  induction m with
  | nil =>
    by_cases hk : k' = k
    · simp [mapInsert, mapLookup, hk]
    · have : ¬ k = k' := fun h => hk h.symm
      simp [mapInsert, mapLookup, hk, this]
  | cons p m ih =>
    by_cases hp : p.1 = k
    · by_cases hk : k' = k
      · simp [mapInsert, mapLookup, hp, hk]
      · have h1 : ¬ k = k' := fun h => hk h.symm
        have h2 : ¬ p.1 = k' := fun h => hk (h.symm.trans hp)
        simp [mapInsert, mapLookup, hp, hk, h1, h2]
    · by_cases hq : p.1 = k'
      · have hk : ¬ k' = k := fun h => hp (h ▸ hq)
        simp [mapInsert, mapLookup, hp, hq, hk]
      · simp [mapInsert, mapLookup, hp, hq, ih]

/-- The keys after an insert are the inserted key together with the old
keys. -/
theorem mem_mapKeys_insert (m : List (List Char × JsonValue)) (k : List Char)
    (v : JsonValue) (a : List Char) :
    a ∈ mapKeys (mapInsert m k v) ↔ a = k ∨ a ∈ mapKeys m := by
  induction m with
  | nil =>
    show a ∈ mapKeys [(k, v)] ↔ a = k ∨ a ∈ mapKeys []
    simp only [mapKeys, List.map_cons, List.map_nil]
    constructor
    · intro h
      rcases List.mem_cons.1 h with h | h
      · exact Or.inl h
      · exact absurd h (List.not_mem_nil a)
    · intro h
      rcases h with h | h
      · exact List.mem_cons.2 (Or.inl h)
      · exact absurd h (List.not_mem_nil a)
  | cons p m ih =>
    by_cases hp : p.1 = k
    · simp only [mapInsert, if_pos hp, mapKeys, List.map_cons, List.mem_cons]
      simp only [mapKeys] at ih
      rw [← hp]
      tauto
    · simp only [mapInsert, if_neg hp, mapKeys, List.map_cons, List.mem_cons]
      simp only [mapKeys] at ih
      rw [ih]
      tauto

/-- Inserting preserves key uniqueness. -/
theorem mapKeys_insert_nodup (m : List (List Char × JsonValue)) (k : List Char)
    (v : JsonValue) (h : (mapKeys m).Nodup) : (mapKeys (mapInsert m k v)).Nodup := by
  induction m with
  | nil => simp [mapInsert, mapKeys]
  | cons p m ih =>
    simp only [mapKeys, List.map_cons, List.nodup_cons] at h
    by_cases hp : p.1 = k
    · simp only [mapInsert, if_pos hp, mapKeys, List.map_cons, List.nodup_cons]
      exact ⟨hp ▸ h.1, h.2⟩
    · simp only [mapInsert, if_neg hp, mapKeys, List.map_cons, List.nodup_cons]
      refine ⟨?_, ih h.2⟩
      intro hmem
      rcases (mem_mapKeys_insert m k v p.1).1 hmem with h1 | h1
      · exact hp h1
      · exact h.1 h1

/-- Unfolding the last occurrence of a key along a cons. -/
theorem lastAssoc_cons (k : List Char) (p : List Char × JsonValue)
    (ps : List (List Char × JsonValue)) :
    lastAssoc k (p :: ps) =
      (lastAssoc k ps).or (if p.1 = k then some p.2 else none) := by
  unfold lastAssoc
  rcases hf : ps.filter (fun q => q.1 = k) with _ | ⟨q, qs⟩
  · by_cases hp : p.1 = k
    · simp [List.filter_cons, hp, hf]
    · simp [List.filter_cons, hp, hf]
  · rcases hgl : (q :: qs).getLast? with _ | w
    · exact absurd (List.getLast?_eq_none_iff.1 hgl) (by simp)
    · by_cases hp : p.1 = k
      · simp [List.filter_cons, hp, hf, List.getLast?_cons_cons, hgl]
      · simp [List.filter_cons, hp, hf, hgl]

/-- Folding inserts over a pair sequence: lookups are decided by the last
occurrence in the sequence, falling back to the initial map. -/
theorem mapLookup_foldl_insert (ps : List (List Char × JsonValue)) :
    ∀ (m : List (List Char × JsonValue)) (k : List Char),
      mapLookup (ps.foldl (fun acc p => mapInsert acc p.1 p.2) m) k =
        (lastAssoc k ps).or (mapLookup m k) := by
  induction ps with
  | nil =>
    intro m k
    simp [lastAssoc]
  | cons p ps ih =>
    intro m k
    rw [List.foldl_cons, ih, lastAssoc_cons]
    rcases hl : lastAssoc k ps with _ | w
    · rw [Option.none_or, Option.none_or, mapLookup_insert]
      by_cases hp : p.1 = k
      · rw [if_pos hp.symm, if_pos hp, Option.or_some]
      · rw [if_neg (fun h => hp h.symm), if_neg hp, Option.none_or]
    · simp

/-- Lookup in the accumulated object map is the last occurrence in the
textual pair sequence. -/
theorem mapLookup_buildMap (ps : List (List Char × JsonValue)) (k : List Char) :
    mapLookup (buildMap ps) k = lastAssoc k ps := by
  unfold buildMap
  rw [mapLookup_foldl_insert]
  show (lastAssoc k ps).or (mapLookup [] k) = lastAssoc k ps
  rcases lastAssoc k ps with _ | w <;> simp [mapLookup]

/-- The accumulated object map has unique keys. -/
theorem buildMap_keys_nodup (ps : List (List Char × JsonValue)) :
    (mapKeys (buildMap ps)).Nodup := by
  unfold buildMap
  have h : ∀ (qs : List (List Char × JsonValue)) (m : List (List Char × JsonValue)),
      (mapKeys m).Nodup →
      (mapKeys (qs.foldl (fun acc p => mapInsert acc p.1 p.2) m)).Nodup := by
    intro qs
    induction qs with
    | nil => intro m hm; exact hm
    | cons p qs ih =>
      intro m hm
      rw [List.foldl_cons]
      exact ih _ (mapKeys_insert_nodup m p.1 p.2 hm)
  exact h ps [] (by simp [mapKeys])

/-- C6: a successful object parse inserts the textual key-value pairs into
the map in order, so the binding of each key is the value of its last
occurrence in the text and the resulting keys are unique. -/
theorem parse_object_last_write_wins :
    ∀ (fuel : Nat) (s : List Char) (m : List (List Char × JsonValue)) (rest : List Char),
      parse_object fuel s = some (m, rest) →
      (mapKeys m).Nodup ∧
      ∃ (f : Nat) (r1 : List Char) (ps : List (List Char × JsonValue)) (r2 : List Char),
        fuel = f + 1 ∧
        sepWithSpace '\x7b' s = some r1 ∧
        parseKvList f r1 = some (ps, r2) ∧
        sepWithSpace '\x7d' r2 = some rest ∧
        m = buildMap ps ∧
        ∀ k, mapLookup m k = lastAssoc k ps := by
  intro fuel s m rest h
  cases fuel with
  | zero => exact Option.noConfusion h
  | succ f =>
    unfold parse_object at h
    split at h
    · exact Option.noConfusion h
    · rename_i r1 h1
      split at h
      · exact Option.noConfusion h
      · rename_i ps r2 h2
        split at h
        · exact Option.noConfusion h
        · rename_i r3 h3
          simp only [Option.some.injEq, Prod.mk.injEq] at h
          obtain ⟨hm, hr⟩ := h
          subst hm
          subst hr
          refine ⟨buildMap_keys_nodup ps, f, r1, ps, r2, rfl, h1, h2, h3, rfl, ?_⟩
          intro k
          exact mapLookup_buildMap ps k

/-- C6 witness: a duplicated key binds to its last value and the key list is
duplicate-free. -/
theorem parse_object_last_write_wins_witness :
    (mapKeys [("a".toList, JsonValue.Number (Num.Float 2))]).Nodup ∧
    ∃ (f : Nat) (r1 : List Char) (ps : List (List Char × JsonValue)) (r2 : List Char),
      (40 : Nat) = f + 1 ∧
      sepWithSpace '\x7b' "\x7b\"a\": 1, \"a\": 2\x7d".toList = some r1 ∧
      parseKvList f r1 = some (ps, r2) ∧
      sepWithSpace '\x7d' r2 = some [] ∧
      [("a".toList, JsonValue.Number (Num.Float 2))] = buildMap ps ∧
      ∀ k, mapLookup [("a".toList, JsonValue.Number (Num.Float 2))] k = lastAssoc k ps :=
  parse_object_last_write_wins 40 "\x7b\"a\": 1, \"a\": 2\x7d".toList
    [("a".toList, JsonValue.Number (Num.Float 2))] [] (by rfl)

/-- C8: each malformed input from the spec fails; the failure branch of
`parse_json` carries no value at all. -/
theorem malformed_inputs_fail :
    parse_json "\x7b".toList = none ∧
    parse_json "[1,2,".toList = none ∧
    parse_json "tru".toList = none ∧
    parse_json "\"unterminated".toList = none :=
  ⟨by rfl, by rfl, by rfl, by rfl⟩

/-- A decimal digit differs from any non-digit character. -/
theorem isDigit_ne (c d : Char) (hc : c.isDigit = true) (hd : d.isDigit = false) :
    ¬ c = d := by
  intro h
  rw [h] at hc
  rw [hc] at hd
  exact Bool.noConfusion hd

/-- A decimal digit is not parser whitespace. -/
theorem isDigit_not_ws (c : Char) (hc : c.isDigit = true) : isWsChar c = false := by
  have h1 := isDigit_ne c ' ' hc (by decide)
  have h2 := isDigit_ne c '\t' hc (by decide)
  have h3 := isDigit_ne c '\n' hc (by decide)
  have h4 := isDigit_ne c '\r' hc (by decide)
  simp [isWsChar, h1, h2, h3, h4]

/-- The `null` literal fails unless the head character is `n`. -/
theorem parse_null_head_ne (c : Char) (t : List Char) (h : ¬ c = 'n') :
    parse_null (c :: t) = none := by
  have e : "null".toList = ['n', 'u', 'l', 'l'] := rfl
  simp [parse_null, e, matchLit, h]

/-- The boolean literals fail unless the head character is `t` or `f`. -/
theorem parse_bool_head_ne (c : Char) (t : List Char) (h1 : ¬ c = 't') (h2 : ¬ c = 'f') :
    parse_bool (c :: t) = none := by
  have e1 : "true".toList = ['t', 'r', 'u', 'e'] := rfl
  have e2 : "false".toList = ['f', 'a', 'l', 's', 'e'] := rfl
  simp [parse_bool, e1, e2, matchLit, h1, h2]

/-- The string parser fails unless the head character is a quote. -/
theorem parse_string_head_ne (c : Char) (t : List Char) (h : ¬ c = '"') :
    parse_string (c :: t) = none := by
  simp [parse_string, h]

/-- The number parser fails when the head character is neither `-` nor a
digit. -/
theorem parse_num_head_nondigit (c : Char) (t : List Char) (h1 : ¬ c = '-')
    (h2 : c.isDigit = false) : parse_num (c :: t) = none := by
  simp [parse_num, optNeg, h1, digit1, List.takeWhile_cons, h2]

/-- The whitespace-tolerant delimiter matcher fails when the head character
is neither whitespace nor the token. -/
theorem sepWithSpace_head_ne (tok c : Char) (t : List Char) (hw : isWsChar c = false)
    (h : ¬ c = tok) : sepWithSpace tok (c :: t) = none := by
  simp [sepWithSpace, skipWs, hw, h]

/-- The array parser fails when the head character is neither whitespace nor
`[`. -/
theorem parse_array_head_ne (fuel : Nat) (c : Char) (t : List Char)
    (hw : isWsChar c = false) (h : ¬ c = '[') : parse_array fuel (c :: t) = none := by
  cases fuel with
  | zero => rfl
  | succ f => simp [parse_array, sepWithSpace_head_ne '[' c t hw h]

/-- The object parser fails when the head character is neither whitespace
nor an opening brace. -/
theorem parse_object_head_ne (fuel : Nat) (c : Char) (t : List Char)
    (hw : isWsChar c = false) (h : ¬ c = '\x7b') : parse_object fuel (c :: t) = none := by
  cases fuel with
  | zero => rfl
  | succ f => simp [parse_object, sepWithSpace_head_ne '\x7b' c t hw h]

/-- After a whitespace head character every scalar alternative of the value
dispatcher fails, so a successful parse can only be an array or an object. -/
theorem parse_value_ws_head (fuel : Nat) (c : Char) (s : List Char) (v : JsonValue)
    (rest : List Char) (hws : isWsChar c = true) :
    parse_value fuel (c :: s) = some (v, rest) →
    (∃ xs, v = JsonValue.Array xs) ∨ (∃ mm, v = JsonValue.Object mm) := by
  intro h
  cases fuel with
  | zero => exact Option.noConfusion h
  | succ f =>
    have hc : c = ' ' ∨ c = '\t' ∨ c = '\n' ∨ c = '\r' := by
      have := hws
      simp only [isWsChar, Bool.or_eq_true, decide_eq_true_eq] at this
      tauto
    have h1 : ¬ c = 'n' := by rcases hc with rfl | rfl | rfl | rfl <;> decide
    have h2 : ¬ c = 't' := by rcases hc with rfl | rfl | rfl | rfl <;> decide
    have h3 : ¬ c = 'f' := by rcases hc with rfl | rfl | rfl | rfl <;> decide
    have h4 : ¬ c = '-' := by rcases hc with rfl | rfl | rfl | rfl <;> decide
    have h5 : c.isDigit = false := by rcases hc with rfl | rfl | rfl | rfl <;> decide
    have h6 : ¬ c = '"' := by rcases hc with rfl | rfl | rfl | rfl <;> decide
    simp only [parse_value, parse_null_head_ne c s h1, parse_bool_head_ne c s h2 h3,
      parse_num_head_nondigit c s h4 h5, parse_string_head_ne c s h6] at h
    rcases ha : parse_array f (c :: s) with _ | ⟨xs, r⟩
    · rw [ha] at h
      rcases ho : parse_object f (c :: s) with _ | ⟨mm, r2⟩
      · rw [ho] at h
        exact Option.noConfusion h
      · rw [ho] at h
        simp only [Option.some.injEq, Prod.mk.injEq] at h
        exact Or.inr ⟨mm, h.1.symm⟩
    · rw [ha] at h
      simp only [Option.some.injEq, Prod.mk.injEq] at h
      exact Or.inl ⟨xs, h.1.symm⟩

/-- C9 is false as stated: `" []"` is one whitespace character followed by a
valid JSON value, yet the parse succeeds, because the array delimiter
matcher itself skips leading whitespace. -/
theorem ws_prefix_rejected_counterexample :
    parse_json "[]".toList = some (JsonValue.Array []) ∧
    parse_json " []".toList = some (JsonValue.Array []) :=
  ⟨by rfl, by rfl⟩

/-- C9 (amended): leading whitespace makes the four scalar alternatives
(null, bool, number, string) fail, since their parsers match literally at
the first character; a whitespace-prefixed input can therefore succeed only
as an array or an object, whose delimiter matchers skip leading whitespace.
In particular `parse(" null")`, `parse(" true")`, `parse(" 1")` and
`parse(" \"a\"")` all fail. -/
theorem ws_prefix_only_delimited_shapes :
    (∀ (c : Char) (s : List Char) (v : JsonValue), isWsChar c = true →
        parse_json (c :: s) = some v →
        (∃ xs, v = JsonValue.Array xs) ∨ (∃ mm, v = JsonValue.Object mm)) ∧
    parse_json " null".toList = none ∧
    parse_json " true".toList = none ∧
    parse_json " 1".toList = none ∧
    parse_json " \"a\"".toList = none := by
  refine ⟨?_, by rfl, by rfl, by rfl, by rfl⟩
  intro c s v hws h
  unfold parse_json at h
  rcases hp : parseValueTop (c :: s) with _ | ⟨w, rest⟩
  · rw [hp] at h
    exact Option.noConfusion h
  · rw [hp] at h
    simp only [Option.some.injEq] at h
    subst h
    unfold parseValueTop at hp
    exact parse_value_ws_head _ c s w rest hws hp

/-- C9 witness for the amended statement, at `" []"`. -/
theorem ws_prefix_only_delimited_shapes_witness :
    (∃ xs, JsonValue.Array ([] : List JsonValue) = JsonValue.Array xs) ∨
    (∃ mm, JsonValue.Array ([] : List JsonValue) = JsonValue.Object mm) :=
  ws_prefix_only_delimited_shapes.1 ' ' "[]".toList (JsonValue.Array [])
    (by decide) (by rfl)

/-- An all-digit run whose value exceeds `i64::MAX` fails the number parser
at the integer-part conversion. -/
theorem parse_num_all_digits_overflow (s : List Char) (hne : s ≠ [])
    (hd : ∀ c ∈ s, c.isDigit = true) (hover : i64Max < digitsToNat s) :
    parse_num s = none := by
  have htake : s.takeWhile Char.isDigit = s := List.takeWhile_eq_self_iff.mpr hd
  have hle : ¬ digitsToNat s ≤ i64Max := not_le.mpr hover
  rcases s with _ | ⟨c, t⟩
  · exact absurd rfl hne
  have hc : c.isDigit = true := hd c (List.mem_cons_self c t)
  have hneg : ¬ c = '-' := isDigit_ne c '-' hc (by decide)
  simp [parse_num, optNeg, hneg, digit1, htake, parseToI64, hle]

/-- An overflowing fractional digit run fails the number parser at the
fractional conversion. -/
theorem parse_num_frac_overflow (s : List Char) (hne : s ≠ [])
    (hd : ∀ c ∈ s, c.isDigit = true) (hover : i64Max < digitsToNat s) :
    parse_num ('1' :: '.' :: s) = none := by
  have htake : s.takeWhile Char.isDigit = s := List.takeWhile_eq_self_iff.mpr hd
  have hle : ¬ digitsToNat s ≤ i64Max := not_le.mpr hover
  rcases s with _ | ⟨c, t⟩
  · exact absurd rfl hne
  have h1 : parseToI64 ['1'] = some 1 := by decide
  have h2 : parseToI64 (c :: t) = none := by
    unfold parseToI64
    rw [if_neg hle]
  simp [parse_num, optNeg, digit1, List.takeWhile_cons, List.dropWhile_cons,
    fracStep, htake, h1, h2]

/-- An overflowing exponent digit run fails the number parser at the
exponent conversion. -/
theorem parse_num_exp_overflow (s : List Char) (hne : s ≠ [])
    (hd : ∀ c ∈ s, c.isDigit = true) (hover : i64Max < digitsToNat s) :
    parse_num ('1' :: 'e' :: s) = none := by
  have htake : s.takeWhile Char.isDigit = s := List.takeWhile_eq_self_iff.mpr hd
  have hle : ¬ digitsToNat s ≤ i64Max := not_le.mpr hover
  rcases s with _ | ⟨c, t⟩
  · exact absurd rfl hne
  have hc : c.isDigit = true := hd c (List.mem_cons_self c t)
  have hneg : ¬ c = '-' := isDigit_ne c '-' hc (by decide)
  have h1 : parseToI64 ['1'] = some 1 := by decide
  have h2 : parseToI64 (c :: t) = none := by
    unfold parseToI64
    rw [if_neg hle]
  simp [parse_num, optNeg, digit1, List.takeWhile_cons, List.dropWhile_cons,
    fracStep, expStep, expTail, hneg, htake, h1, h2]

/-- The value dispatcher fails on an all-digit overflowing input: every
alternative fails. -/
theorem parse_value_overflow_plain (fuel : Nat) (s : List Char) (hne : s ≠ [])
    (hd : ∀ c ∈ s, c.isDigit = true) (hover : i64Max < digitsToNat s) :
    parse_value fuel s = none := by
  cases fuel with
  | zero => rfl
  | succ f =>
    rcases s with _ | ⟨c, t⟩
    · exact absurd rfl hne
    have hc : c.isDigit = true := hd c (List.mem_cons_self c t)
    have hw : isWsChar c = false := isDigit_not_ws c hc
    simp [parse_value,
      parse_null_head_ne c t (isDigit_ne c 'n' hc (by decide)),
      parse_bool_head_ne c t (isDigit_ne c 't' hc (by decide)) (isDigit_ne c 'f' hc (by decide)),
      parse_num_all_digits_overflow (c :: t) (List.cons_ne_nil c t) hd hover,
      parse_string_head_ne c t (isDigit_ne c '"' hc (by decide)),
      parse_array_head_ne f c t hw (isDigit_ne c '[' hc (by decide)),
      parse_object_head_ne f c t hw (isDigit_ne c '\x7b' hc (by decide))]

/-- The value dispatcher fails on `1.` followed by an overflowing run. -/
theorem parse_value_overflow_frac (fuel : Nat) (s : List Char) (hne : s ≠ [])
    (hd : ∀ c ∈ s, c.isDigit = true) (hover : i64Max < digitsToNat s) :
    parse_value fuel ('1' :: '.' :: s) = none := by
  cases fuel with
  | zero => rfl
  | succ f =>
    simp [parse_value,
      parse_null_head_ne '1' ('.' :: s) (by decide),
      parse_bool_head_ne '1' ('.' :: s) (by decide) (by decide),
      parse_num_frac_overflow s hne hd hover,
      parse_string_head_ne '1' ('.' :: s) (by decide),
      parse_array_head_ne f '1' ('.' :: s) (by decide) (by decide),
      parse_object_head_ne f '1' ('.' :: s) (by decide) (by decide)]

/-- The value dispatcher fails on `1e` followed by an overflowing run. -/
theorem parse_value_overflow_exp (fuel : Nat) (s : List Char) (hne : s ≠ [])
    (hd : ∀ c ∈ s, c.isDigit = true) (hover : i64Max < digitsToNat s) :
    parse_value fuel ('1' :: 'e' :: s) = none := by
  cases fuel with
  | zero => rfl
  | succ f =>
    simp [parse_value,
      parse_null_head_ne '1' ('e' :: s) (by decide),
      parse_bool_head_ne '1' ('e' :: s) (by decide) (by decide),
      parse_num_exp_overflow s hne hd hover,
      parse_string_head_ne '1' ('e' :: s) (by decide),
      parse_array_head_ne f '1' ('e' :: s) (by decide) (by decide),
      parse_object_head_ne f '1' ('e' :: s) (by decide) (by decide)]

/-- C10: every digit run in a number is converted through a signed 64-bit
integer, so a run whose value exceeds `i64::MAX` makes the whole parse fail —
in the integer part, in the fractional part, and in the exponent. -/
theorem digit_run_overflow_fails :
    ∀ (s : List Char), s ≠ [] → (∀ c ∈ s, c.isDigit = true) →
      i64Max < digitsToNat s →
      parse_json s = none ∧
      parse_json ('1' :: '.' :: s) = none ∧
      parse_json ('1' :: 'e' :: s) = none := by
  intro s hne hd hover
  refine ⟨?_, ?_, ?_⟩ <;> unfold parse_json parseValueTop
  · rw [parse_value_overflow_plain _ s hne hd hover]
  · rw [parse_value_overflow_frac _ s hne hd hover]
  · rw [parse_value_overflow_exp _ s hne hd hover]

/-- C10 witness: a 20-digit run of nines overflows `i64` and fails in all
three positions. -/
theorem digit_run_overflow_fails_witness :
    parse_json "99999999999999999999".toList = none ∧
    parse_json ('1' :: '.' :: "99999999999999999999".toList) = none ∧
    parse_json ('1' :: 'e' :: "99999999999999999999".toList) = none :=
  digit_run_overflow_fails "99999999999999999999".toList (by decide) (by decide) (by decide)

end JsonSrc
